import Mathlib

/-!
Verification development for the Server-System repository
(`Source/Private/TCP_System.cpp`, `Source/Public/TCP_System.h`).

The shallow embedding translates the protocol codec, the framed
receive primitive, the account/session stores and the user-management
operations into executable Lean definitions.  C++ `std::string` is
modelled as Lean `String` (or `List Char` where character-level
recursion is needed), `std::map<std::string, T>` as an association
list `List (String × T)` with in-place update-or-append insertion
(`std::map` iteration order only matters when several sessions are
bound to one account, which the single-binding invariant rules out),
and `std::vector<std::string>` as `List String`.  Mutation through
the shared session pointers is modelled by updating the session
table entry with the matching key, which reproduces the
table-visible effect of the aliasing; an operation invoked for a
session id that is absent from the table leaves the state unchanged
and returns the empty string (during a connection's serving loop its
session is always registered).
-/

namespace ServerSystem

/-! ## Protocol codec (`ProtocolMessage::parse` / `serialize`) -/

/-- The token sequence produced by the `std::getline(iss, part, '|')`
loop of `ProtocolMessage::parse`: on empty input `getline` fails and
yields no token; otherwise it reads up to the next `'|'` (consuming
it) or up to end-of-input, and the loop continues only after a
consumed delimiter. -/
def getlineTokens : List Char → List (List Char)
  | [] => []
  | c :: cs =>
    if c = '|' then [] :: getlineTokens cs
    else
      match getlineTokens cs with
      | [] => [[c]]
      | t :: ts => (c :: t) :: ts

/-- Wire message: command plus positional string arguments
(struct `ProtocolMessage`). -/
structure ProtocolMessage where
  command : String
  params : List String
deriving DecidableEq, Repr

/-- Model of `ProtocolMessage::parse`: first `'|'`-token is the command, the
remaining tokens are the positional arguments; an unparsable (empty)
line leaves the default-constructed empty message. -/
def ProtocolMessage.parse (message : String) : ProtocolMessage :=
  match getlineTokens message.data with
  | [] => ⟨"", []⟩
  | c :: ps => ⟨⟨c⟩, ps.map (fun p => ⟨p⟩)⟩

/-- Model of `ProtocolMessage::serialize`: command followed by each parameter
prefixed with `"|"`. -/
def ProtocolMessage.serialize (m : ProtocolMessage) : String :=
  m.params.foldl (fun r p => r ++ "|" ++ p) m.command

/-! ## Framed receive (`TCPUserSystemServer::receiveMessage`)

A connection's inbound bytes are modelled as the list of chunks the
successive `recv` calls return (each at most 1023 bytes, the
`sizeof(buffer) - 1` bound); an exhausted chunk list models `recv`
returning `<= 0` (timeout or peer close). -/

/-- Whether the accumulated buffer contains the terminator
(`message.find('\n') != npos`). -/
def containsNewline (l : List Char) : Bool :=
  l.any (fun c => c = '\n')

/-- The value `message.substr(0, pos)` for `pos` the first newline position. -/
def takeToNewline (l : List Char) : List Char :=
  l.takeWhile (fun c => c ≠ '\n')

/-- The receive loop: append the next chunk, deliver the bytes
strictly before the first newline if one is present, fail (empty
result, treated by the caller as connection loss) once the buffer
exceeds 4096 bytes, otherwise keep accumulating.  Returns the
delivered message together with the chunks not yet consumed (bytes
of the current chunk beyond the newline live only in the local
buffer and are gone). -/
def receiveMessageAux : List (List Char) → List Char → List Char × List (List Char)
  | [], _ => ([], [])
  | c :: rest, acc =>
    let message := acc ++ c
    if containsNewline message then (takeToNewline message, rest)
    else if message.length > 4096 then ([], rest)
    else receiveMessageAux rest message

/-- One `receiveMessage` call on a fresh (empty) buffer. -/
def receiveMessage (chunks : List (List Char)) : List Char :=
  (receiveMessageAux chunks []).1

/-! ## Data model (`User`, `ClientSession`, server tables) -/

/-- Account record (class `User`); `verifyPassword` is plain string
equality and is inlined as `password = pw` at each use site. -/
structure User where
  userId : String
  password : String
  userString : String
deriving DecidableEq, Repr

/-- Live session record (class `ClientSession`); `isLoggedIn()` is
`loggedInUser ≠ ""` and is inlined at each use site.  The transport
handle is an abstract socket number. -/
structure ClientSession where
  clientSocket : Nat
  sessionId : String
  loggedInUser : String
  isActive : Bool
deriving DecidableEq, Repr

/-- The two shared tables of `TCPUserSystemServer`: `users` and
`sessions`. -/
structure ServerState where
  users : List (String × User)
  sessions : List (String × ClientSession)
deriving DecidableEq, Repr

/-- Model of `std::map` lookup (`find`). -/
def mapFind (k : String) : List (String × α) → Option α
  | [] => none
  | e :: rest => if e.1 = k then some e.2 else mapFind k rest

/-- Model of `std::map` `operator[]=`: replace the entry with the given key in
place, or append a fresh entry. -/
def mapInsert (k : String) (v : α) : List (String × α) → List (String × α)
  | [] => [(k, v)]
  | e :: rest => if e.1 = k then (k, v) :: rest else e :: mapInsert k v rest

/-- Model of `std::map::erase` of the entry with the given key. -/
def mapEraseKey (k : String) : List (String × α) → List (String × α)
  | [] => []
  | e :: rest => if e.1 = k then rest else e :: mapEraseKey k rest

/-- Mutation through a `SimpleSharedPtr<ClientSession>` that aliases a
table entry: apply `f` to the session stored under key `sid`. -/
def updateSessions (sid : String) (f : ClientSession → ClientSession) :
    List (String × ClientSession) → List (String × ClientSession)
  | [] => []
  | e :: rest =>
    (if e.1 = sid then (e.1, f e.2) else e) :: updateSessions sid f rest

/-- Effect of `session->setLoggedInUser(uid)` for the session registered as
`sid`. -/
def setSessionUser (st : ServerState) (sid uid : String) : ServerState :=
  { st with sessions := updateSessions sid (fun s => { s with loggedInUser := uid }) st.sessions }

/-- Effect of `session->setInactive()` for the session registered as `sid`. -/
def sessionDeactivate (st : ServerState) (sid : String) : ServerState :=
  { st with sessions := updateSessions sid (fun s => { s with isActive := false }) st.sessions }

/-! ## User-management operations -/

/-- Model of `TCPUserSystemServer::registerUser`. -/
def registerUser (st : ServerState) (uid pw : String) : String × ServerState :=
  if (mapFind uid st.users).isSome then ("ERROR|用户ID已存在", st)
  else if uid = "" ∨ pw = "" then ("ERROR|用户ID和密码不能为空", st)
  else ("SUCCESS|用户注册成功", { st with users := mapInsert uid ⟨uid, pw, ""⟩ st.users })

/-- Model of `TCPUserSystemServer::findUserSession`: linear scan of the session
table for a session with `isLoggedIn() && getLoggedInUser() == userId`;
returns the session id, or `""` when none is bound. -/
def findUserSession (l : List (String × ClientSession)) (uid : String) : String :=
  match l with
  | [] => ""
  | e :: rest =>
    if e.2.loggedInUser ≠ "" ∧ e.2.loggedInUser = uid then e.1
    else findUserSession rest uid

/-- Model of `TCPUserSystemServer::loginUser`. -/
def loginUser (st : ServerState) (sid uid pw : String) : String × ServerState :=
  match mapFind sid st.sessions with
  | none => ("", st)
  | some s =>
    if s.loggedInUser ≠ "" then ("ERROR|当前会话已有用户登录", st)
    else
      match mapFind uid st.users with
      | none => ("ERROR|用户不存在", st)
      | some u =>
        if ¬ u.password = pw then ("ERROR|密码错误", st)
        else
          let existingSessionId := findUserSession st.sessions uid
          if existingSessionId ≠ "" then
            ("CONFLICT|用户已在其他客户端登录|" ++ existingSessionId ++ "|是否挤占下线？(Y/N)", st)
          else ("SUCCESS|登录成功", setSessionUser st sid uid)

/-- Model of `TCPUserSystemServer::handleLoginConflict` (the `FORCE_LOGIN`
resolver).  The third component is the list of out-of-band messages
sent during the call, as (socket, payload) pairs (the `KICKED`
notice). -/
def handleLoginConflict (st : ServerState) (sid uid pw : String) (forceLogin : Bool) :
    String × ServerState × List (Nat × String) :=
  match mapFind sid st.sessions with
  | none => ("", st, [])
  | some s =>
    if s.loggedInUser ≠ "" then ("ERROR|当前会话已有用户登录", st, [])
    else
      match mapFind uid st.users with
      | none => ("ERROR|用户不存在", st, [])
      | some u =>
        if ¬ u.password = pw then ("ERROR|密码错误", st, [])
        else
          let existingSessionId := findUserSession st.sessions uid
          if existingSessionId ≠ "" then
            if ¬ forceLogin then ("ERROR|登录已取消", st, [])
            else
              match mapFind existingSessionId st.sessions with
              | none =>
                ("SUCCESS|登录成功，已挤占原会话", setSessionUser st sid uid, [])
              | some ex =>
                let st1 := { st with
                  sessions := updateSessions existingSessionId
                    (fun s0 => { s0 with loggedInUser := "", isActive := false }) st.sessions }
                ("SUCCESS|登录成功，已挤占原会话", setSessionUser st1 sid uid,
                  [(ex.clientSocket, "KICKED|您的账号在其他地方登录，连接已断开")])
          else ("SUCCESS|登录成功，已挤占原会话", setSessionUser st sid uid, [])

/-- Model of `TCPUserSystemServer::logoutUser`. -/
def logoutUser (st : ServerState) (sid : String) : String × ServerState :=
  match mapFind sid st.sessions with
  | none => ("", st)
  | some s =>
    if ¬ s.loggedInUser ≠ "" then ("ERROR|没有用户处于登录状态", st)
    else ("SUCCESS|登出成功", setSessionUser st sid "")

/-- Model of `TCPUserSystemServer::deleteUser`. -/
def deleteUser (st : ServerState) (sid uid pw : String) : String × ServerState :=
  match mapFind sid st.sessions with
  | none => ("", st)
  | some s =>
    match mapFind uid st.users with
    | none => ("ERROR|用户不存在", st)
    | some u =>
      if ¬ u.password = pw then ("ERROR|密码错误", st)
      else
        let st1 := if s.loggedInUser = uid then setSessionUser st sid "" else st
        ("SUCCESS|用户注销成功", { st1 with users := mapEraseKey uid st1.users })

/-- Model of `TCPUserSystemServer::changePassword`. -/
def changePassword (st : ServerState) (sid oldPw newPw : String) : String × ServerState :=
  match mapFind sid st.sessions with
  | none => ("", st)
  | some s =>
    if ¬ s.loggedInUser ≠ "" then ("ERROR|请先登录", st)
    else if oldPw = "" ∨ newPw = "" then ("ERROR|密码不能为空", st)
    else
      match mapFind s.loggedInUser st.users with
      | none => ("ERROR|用户不存在", st)
      | some u =>
        if ¬ u.password = oldPw then ("ERROR|旧密码错误", st)
        else ("SUCCESS|密码修改成功",
          { st with users := mapInsert s.loggedInUser { u with password := newPw } st.users })

/-- Model of `TCPUserSystemServer::setUserString`. -/
def setUserString (st : ServerState) (sid value : String) : String × ServerState :=
  match mapFind sid st.sessions with
  | none => ("", st)
  | some s =>
    if ¬ s.loggedInUser ≠ "" then ("ERROR|请先登录", st)
    else
      match mapFind s.loggedInUser st.users with
      | none => ("ERROR|用户不存在", st)
      | some u =>
        ("SUCCESS|用户字符串已更新",
          { st with users := mapInsert s.loggedInUser { u with userString := value } st.users })

/-- Model of `TCPUserSystemServer::getUserString` (read-only). -/
def getUserString (st : ServerState) (sid : String) : String :=
  match mapFind sid st.sessions with
  | none => ""
  | some s =>
    if ¬ s.loggedInUser ≠ "" then "ERROR|请先登录"
    else
      match mapFind s.loggedInUser st.users with
      | none => "ERROR|用户不存在"
      | some u => "SUCCESS|" ++ u.userString

/-- The hexadecimal alphabet `"0123456789ABCDEF"` indexed by
`generateSessionId`. -/
def hexDigits : List Char :=
  ['0', '1', '2', '3', '4', '5', '6', '7', '8', '9', 'A', 'B', 'C', 'D', 'E', 'F']

/-- Model of `TCPUserSystemServer::generateSessionId`: 16 characters, each
`"0123456789ABCDEF"[rand() % 16]`.  The C `rand` stream is abstracted
as a function `r` from draw index to value; the code re-seeds with
`srand(time(0))` on every call, so two calls in the same second run
the identical stream. -/
def generateSessionId (r : Nat → Nat) : String :=
  ⟨(List.range 16).map (fun i => hexDigits.getD (r i % 16) '0')⟩

/-- Session registration in `handleClient`:
`sessions[sessionId] = session` with a freshly constructed
`ClientSession(clientSocket, sessionId)`. -/
def sessionCreate (st : ServerState) (sid : String) (sock : Nat) : ServerState :=
  { st with sessions := mapInsert sid ⟨sock, sid, "", true⟩ st.sessions }

/-- Session cleanup in `handleClient`: `sessions.erase(sessionId)`. -/
def sessionRemove (st : ServerState) (sid : String) : ServerState :=
  { st with sessions := mapEraseKey sid st.sessions }

/-- Model of `TCPUserSystemServer::processClientMessage`: parse and dispatch
one frame for the session registered as `sid`.  Returns the response
frame (sent to the session's own socket), the new state, and the
out-of-band messages sent during processing. -/
def processClientMessage (st : ServerState) (sid : String) (message : String) :
    String × ServerState × List (Nat × String) :=
  let msg := ProtocolMessage.parse message
  if msg.command = "REGISTER" then
    if msg.params.length ≥ 2 then
      ((registerUser st (msg.params.getD 0 "") (msg.params.getD 1 "")).1,
        (registerUser st (msg.params.getD 0 "") (msg.params.getD 1 "")).2, [])
    else ("ERROR|参数不足", st, [])
  else if msg.command = "LOGIN" then
    if msg.params.length ≥ 2 then
      ((loginUser st sid (msg.params.getD 0 "") (msg.params.getD 1 "")).1,
        (loginUser st sid (msg.params.getD 0 "") (msg.params.getD 1 "")).2, [])
    else ("ERROR|参数不足", st, [])
  else if msg.command = "FORCE_LOGIN" then
    if msg.params.length ≥ 3 then
      handleLoginConflict st sid (msg.params.getD 0 "") (msg.params.getD 1 "")
        (decide (msg.params.getD 2 "" = "Y" ∨ msg.params.getD 2 "" = "y"))
    else ("ERROR|参数不足", st, [])
  else if msg.command = "LOGOUT" then
    ((logoutUser st sid).1, (logoutUser st sid).2, [])
  else if msg.command = "DELETE" then
    if msg.params.length ≥ 2 then
      ((deleteUser st sid (msg.params.getD 0 "") (msg.params.getD 1 "")).1,
        (deleteUser st sid (msg.params.getD 0 "") (msg.params.getD 1 "")).2, [])
    else ("ERROR|参数不足", st, [])
  else if msg.command = "CHANGE_PASSWORD" then
    if msg.params.length ≥ 2 then
      ((changePassword st sid (msg.params.getD 0 "") (msg.params.getD 1 "")).1,
        (changePassword st sid (msg.params.getD 0 "") (msg.params.getD 1 "")).2, [])
    else ("ERROR|参数不足", st, [])
  else if msg.command = "SET_STRING" then
    if msg.params.length ≥ 1 then
      ((setUserString st sid (msg.params.getD 0 "")).1,
        (setUserString st sid (msg.params.getD 0 "")).2, [])
    else ("ERROR|参数不足", st, [])
  else if msg.command = "GET_STRING" then
    (getUserString st sid, st, [])
  else if msg.command = "QUIT" then
    ("GOODBYE|感谢使用", sessionDeactivate st sid, [])
  else ("ERROR|未知命令: " ++ msg.command, st, [])

/-! ## Codec round trip (C4) -/

/-- The character stream of a frame body: each field prefixed by the
pipe delimiter. -/
def pipeJoin (ps : List (List Char)) : List Char :=
  (ps.map (fun p => '|' :: p)).flatten

theorem serialize_data (cmd : String) (ps : List String) :
    (ProtocolMessage.serialize ⟨cmd, ps⟩).data = cmd.data ++ pipeJoin (ps.map String.data) := by
  induction ps generalizing cmd with
  | nil => simp [ProtocolMessage.serialize, pipeJoin]
  | cons p ps ih =>
    have h := ih (cmd ++ "|" ++ p)
    simp only [ProtocolMessage.serialize, List.foldl_cons] at h ⊢
    rw [h]
    simp [pipeJoin, String.data_append]

theorem getlineTokens_single (t : List Char) (hne : t ≠ []) (hp : '|' ∉ t) :
    getlineTokens t = [t] := by
  induction t with
  | nil => exact absurd rfl hne
  | cons c cs ih =>
    have hc : ¬ c = '|' := fun h => hp (h ▸ List.mem_cons_self c cs)
    rcases Classical.em (cs = []) with h | h
    · subst h; simp [getlineTokens, hc]
    · have := ih h (fun hm => hp (List.mem_cons_of_mem _ hm))
      simp [getlineTokens, hc, this]

theorem getlineTokens_append_pipe (t r : List Char) (hp : '|' ∉ t) :
    getlineTokens (t ++ '|' :: r) = t :: getlineTokens r := by
  induction t with
  | nil => simp [getlineTokens]
  | cons c cs ih =>
    have hc : ¬ c = '|' := fun h => hp (h ▸ List.mem_cons_self c cs)
    have := ih (fun hm => hp (List.mem_cons_of_mem _ hm))
    simp only [List.cons_append, getlineTokens, hc, if_false]
    rw [List.append_eq, this]

theorem getlineTokens_pipeJoin (ps : List (List Char)) :
    ∀ t : List Char, '|' ∉ t → (∀ p ∈ ps, '|' ∉ p) → (t = [] → ps ≠ []) →
      ps.getLast? ≠ some [] → getlineTokens (t ++ pipeJoin ps) = t :: ps := by
  induction ps with
  | nil =>
    intro t ht _ hne _
    have : t ≠ [] := fun h => (hne h) rfl
    simp [pipeJoin, getlineTokens_single t this ht]
  | cons p ps ih =>
    intro t ht hp _ hl
    have hjoin : pipeJoin (p :: ps) = '|' :: (p ++ pipeJoin ps) := by
      simp [pipeJoin]
    rw [hjoin, getlineTokens_append_pipe t (p ++ pipeJoin ps) ht]
    have hp' : '|' ∉ p := hp p (List.mem_cons_self p ps)
    have hrest : ∀ q ∈ ps, '|' ∉ q := fun q hq => hp q (List.mem_cons_of_mem _ hq)
    have hplast : p = [] → ps ≠ [] := by
      intro hpe hpse
      subst hpse
      exact hl (by simp [hpe])
    have hlast' : ps.getLast? ≠ some [] := by
      cases ps with
      | nil => simp
      | cons q qs =>
        intro hcon
        exact hl (by rw [List.getLast?_cons_cons]; exact hcon)
    rw [ih p hp' hrest hplast hlast']

/-- C4 counterexample input: the frame `"LOGIN|alice|"` is the pipe
join of the non-empty command `"LOGIN"` with the fields
`["alice", ""]`, none of which contains the delimiter. -/
theorem roundtrip_trailing_empty_field_fails :
    "LOGIN|alice|" = ProtocolMessage.serialize ⟨"LOGIN", ["alice", ""]⟩ ∧
    ("LOGIN" : String) ≠ "" ∧ '|' ∉ "LOGIN".data ∧
    (∀ p ∈ (["alice", ""] : List String), '|' ∉ p.data) ∧
    ProtocolMessage.serialize (ProtocolMessage.parse "LOGIN|alice|") ≠ "LOGIN|alice|" := by
  refine ⟨rfl, by decide, by decide, by decide, by decide⟩

/-- C4 (amended): for every frame `m` built as the pipe join of a
non-empty command and fields none of which contains `'|'` and whose
final field (when fields exist) is non-empty,
`serialize (parse m) = m`.  (A trailing empty field is dropped by
`parse`, which is what the counterexample exhibits.) -/
theorem serialize_parse_roundtrip (m cmd : String) (ps : List String)
    (hm : m = ProtocolMessage.serialize ⟨cmd, ps⟩) (hc : cmd ≠ "")
    (hcp : '|' ∉ cmd.data) (hp : ∀ p ∈ ps, '|' ∉ p.data)
    (hl : ps.getLast? ≠ some "") :
    ProtocolMessage.serialize (ProtocolMessage.parse m) = m := by
  have hparse : ProtocolMessage.parse m = ⟨cmd, ps⟩ := by
    have hdata : m.data = cmd.data ++ pipeJoin (ps.map String.data) := by
      rw [hm]; exact serialize_data cmd ps
    have hcd : cmd.data ≠ [] := by
      intro h
      exact hc (String.ext h)
    have hmap : ∀ q ∈ ps.map String.data, '|' ∉ q := by
      intro q hq
      rcases List.mem_map.mp hq with ⟨p, hpm, rfl⟩
      exact hp p hpm
    have hmaplast : (ps.map String.data).getLast? ≠ some [] := by
      rw [List.getLast?_map]
      intro h
      rcases Option.map_eq_some'.mp h with ⟨s, hs, hsd⟩
      have hse : s = "" := String.ext (by simp [hsd])
      exact hl (by rw [hs, hse])
    have htok : getlineTokens m.data = cmd.data :: ps.map String.data := by
      rw [hdata]
      exact getlineTokens_pipeJoin (ps.map String.data) cmd.data hcp hmap
        (fun h => absurd h hcd) hmaplast
    simp only [ProtocolMessage.parse, htok]
    refine congrArg₂ ProtocolMessage.mk rfl ?_
    rw [List.map_map]
    have : (fun p : String => String.mk p.data) = id := by
      funext p; rfl
    simp only [Function.comp_def, this]
    exact List.map_id ps
  rw [hparse, ← hm]

/-- C4 witness: the round trip at the concrete frame
`"LOGIN|alice|pw"`. -/
theorem serialize_parse_roundtrip_witness :
    ProtocolMessage.serialize (ProtocolMessage.parse "LOGIN|alice|pw") = "LOGIN|alice|pw" :=
  serialize_parse_roundtrip "LOGIN|alice|pw" "LOGIN" ["alice", "pw"] rfl
    (by decide) (by decide) (by decide) (by decide)

/-! ## Receive primitive: size ceiling (C6) and pipelining (C10) -/

theorem containsNewline_iff (l : List Char) : containsNewline l = true ↔ '\n' ∈ l := by
  simp [containsNewline, List.any_eq_true]

theorem containsNewline_append (a b : List Char) :
    containsNewline (a ++ b) = (containsNewline a || containsNewline b) := by
  simp [containsNewline, List.any_append]

theorem takeToNewline_append_newline (l r : List Char) (h : '\n' ∉ l) :
    takeToNewline (l ++ '\n' :: r) = l := by
  induction l with
  | nil =>
    unfold takeToNewline
    rw [List.nil_append, List.takeWhile_cons, if_neg (by simp)]
  | cons c cs ih =>
    have hc : c ≠ '\n' := fun hh => h (hh ▸ List.mem_cons_self c cs)
    have ihh := ih (fun hm => h (List.mem_cons_of_mem _ hm))
    unfold takeToNewline at ihh ⊢
    rw [List.cons_append, List.takeWhile_cons, if_pos (decide_eq_true hc), ihh]

theorem takeToNewline_length_lt (l : List Char) (h : containsNewline l = true) :
    (takeToNewline l).length < l.length := by
  induction l with
  | nil => simp [containsNewline] at h
  | cons c cs ih =>
    by_cases hc : c = '\n'
    · subst hc
      unfold takeToNewline
      rw [List.takeWhile_cons, if_neg (by simp)]
      simp
    · have hcs : containsNewline cs = true := by
        rcases (containsNewline_iff _).mp h with hm
        rcases List.mem_cons.mp hm with h1 | h1
        · exact absurd h1.symm hc
        · exact (containsNewline_iff _).mpr h1
      have ihh := ih hcs
      unfold takeToNewline at ihh ⊢
      rw [List.takeWhile_cons, if_pos (decide_eq_true (Ne.intro hc))]
      simpa using Nat.succ_lt_succ ihh

theorem receiveMessageAux_length_le (chunks : List (List Char)) :
    ∀ acc : List Char, (∀ c ∈ chunks, c.length ≤ 1023) → acc.length ≤ 4096 →
      ((receiveMessageAux chunks acc).1).length ≤ 5118 := by
  induction chunks with
  | nil => intro acc _ _; simp [receiveMessageAux]
  | cons c rest ih =>
    intro acc hc hacc
    have hclen : c.length ≤ 1023 := hc c (List.mem_cons_self c rest)
    have hap : (acc ++ c).length = acc.length + c.length := List.length_append acc c
    simp only [receiveMessageAux]
    split_ifs with h1 h2
    · have h3 := takeToNewline_length_lt (acc ++ c) h1
      show (takeToNewline (acc ++ c)).length ≤ 5118
      omega
    · show ([] : List Char).length ≤ 5118
      simp
    · show ((receiveMessageAux rest (acc ++ c)).1).length ≤ 5118
      exact ih (acc ++ c) (fun d hd => hc d (List.mem_cons_of_mem _ hd)) (by omega)

theorem receiveMessageAux_no_newline (chunks : List (List Char)) :
    ∀ acc : List Char, (∀ c ∈ chunks, containsNewline c = false) →
      containsNewline acc = false → (receiveMessageAux chunks acc).1 = [] := by
  induction chunks with
  | nil => intro acc _ _; simp [receiveMessageAux]
  | cons c rest ih =>
    intro acc hc hacc
    have hcnl : containsNewline c = false := hc c (List.mem_cons_self c rest)
    have hnl : containsNewline (acc ++ c) = false := by
      rw [containsNewline_append, hacc, hcnl]; rfl
    simp only [receiveMessageAux]
    split_ifs with h1 h2
    · exact absurd h1 (by simp [hnl])
    · rfl
    · show (receiveMessageAux rest (acc ++ c)).1 = []
      exact ih (acc ++ c) (fun d hd => hc d (List.mem_cons_of_mem _ hd)) hnl

/-- A full 1023-byte `recv` batch with no terminator. -/
def chunkFull : List Char := List.replicate 1023 'a'

/-- A 1023-byte `recv` batch whose final byte is the terminator. -/
def chunkLast : List Char := List.replicate 1022 'a' ++ ['\n']

theorem containsNewline_replicate (n : Nat) :
    containsNewline (List.replicate n 'a') = false := by
  rw [← Bool.not_eq_true, containsNewline_iff]
  intro h
  exact absurd (List.eq_of_mem_replicate h) (by decide)

theorem receiveMessageAux_chunkFull (k : Nat) (rest : List (List Char))
    (hk : k + 1023 ≤ 4096) :
    receiveMessageAux (chunkFull :: rest) (List.replicate k 'a') =
      receiveMessageAux rest (List.replicate (k + 1023) 'a') := by
  have hrep : List.replicate k 'a' ++ chunkFull = List.replicate (k + 1023) 'a' := by
    rw [chunkFull, ← List.replicate_add]
  have hnl := containsNewline_replicate (k + 1023)
  have hlen : ¬ (List.replicate (k + 1023) 'a').length > 4096 := by
    rw [List.length_replicate]; omega
  simp only [receiveMessageAux, hrep, hnl, Bool.false_eq_true, if_false, hlen]

/-- C6 counterexample: five maximal `recv` batches (each within the
1023-byte read bound) deliver a 5114-byte message to the dispatcher,
exceeding the 4096-byte ceiling, because the newline check runs
before the size check on the accumulated buffer. -/
theorem oversized_message_delivered :
    (∀ c ∈ [chunkFull, chunkFull, chunkFull, chunkFull, chunkLast], c.length ≤ 1023) ∧
    receiveMessage [chunkFull, chunkFull, chunkFull, chunkFull, chunkLast] =
      List.replicate 5114 'a' ∧
    (receiveMessage [chunkFull, chunkFull, chunkFull, chunkFull, chunkLast]).length = 5114 ∧
    5114 > 4096 := by
  have hstep : receiveMessage [chunkFull, chunkFull, chunkFull, chunkFull, chunkLast] =
      List.replicate 5114 'a' := by
    have h0 : ([] : List Char) = List.replicate 0 'a' := rfl
    rw [receiveMessage, h0,
      receiveMessageAux_chunkFull 0 _ (by omega),
      receiveMessageAux_chunkFull 1023 _ (by omega),
      receiveMessageAux_chunkFull 2046 _ (by omega),
      receiveMessageAux_chunkFull 3069 _ (by omega)]
    have hrep : List.replicate 4092 'a' ++ chunkLast =
        List.replicate 5114 'a' ++ ['\n'] := by
      rw [chunkLast, ← List.append_assoc, ← List.replicate_add]
    have hnl : containsNewline (List.replicate 5114 'a' ++ ['\n']) = true := by
      rw [containsNewline_iff]
      exact List.mem_append_right _ (List.mem_singleton.mpr rfl)
    have htake : takeToNewline (List.replicate 5114 'a' ++ ['\n']) =
        List.replicate 5114 'a' := by
      exact takeToNewline_append_newline (List.replicate 5114 'a') []
        (fun h => absurd (List.eq_of_mem_replicate h) (by decide))
    simp only [receiveMessageAux, hrep, hnl, if_true, htake]
  have hfull : chunkFull.length ≤ 1023 := by
    rw [chunkFull, List.length_replicate]
  have hlast : chunkLast.length ≤ 1023 := by
    rw [chunkLast]
    simp only [List.length_append, List.length_replicate, List.length_cons,
      List.length_nil]
    omega
  refine ⟨?_, hstep, ?_, by omega⟩
  · intro c hcm
    simp only [List.mem_cons, List.mem_singleton] at hcm
    rcases hcm with rfl | rfl | rfl | rfl | rfl | h
    · exact hfull
    · exact hfull
    · exact hfull
    · exact hfull
    · exact hlast
    · cases h
  · rw [hstep, List.length_replicate]

/-- C6 (amended): the size ceiling is approximate.  Any receive whose
buffer never sees a newline fails with the empty result (size
rejection or timeout/close), and every delivered message is bounded
by `4096 + 1022 = 5118` bytes — not by 4096, since the newline check
runs before the size check, as the counterexample shows. -/
theorem receiveMessage_bounds :
    (∀ chunks : List (List Char), (∀ c ∈ chunks, c.length ≤ 1023) →
      (receiveMessage chunks).length ≤ 5118) ∧
    (∀ chunks : List (List Char), (∀ c ∈ chunks, containsNewline c = false) →
      receiveMessage chunks = []) := by
  constructor
  · intro chunks hc
    exact receiveMessageAux_length_le chunks [] hc (by simp)
  · intro chunks hc
    exact receiveMessageAux_no_newline chunks [] hc rfl

/-- C6 witness: the bound and the failure mode at concrete inputs. -/
theorem receiveMessage_bounds_witness :
    (receiveMessage [['h', 'i', '\n']]).length ≤ 5118 ∧
    receiveMessage [['h', 'i']] = [] :=
  ⟨receiveMessage_bounds.1 [['h', 'i', '\n']] (by decide),
   receiveMessage_bounds.2 [['h', 'i']] (by decide)⟩

/-- C10: when a read batch carries a newline, the call returns exactly
the bytes strictly before the first newline, and everything after it
is discarded: the rest of the batch is not kept for the next call,
which therefore starts from the untouched chunk stream (here empty,
so it reports connection loss). -/
theorem receiveMessage_discards_pipelined (m1 m2 : List Char)
    (h1 : '\n' ∉ m1) (hlen : m1.length + m2.length + 2 ≤ 1023) :
    receiveMessageAux [m1 ++ '\n' :: (m2 ++ ['\n'])] [] = (m1, []) ∧
    receiveMessageAux ([] : List (List Char)) [] = ([], []) := by
  constructor
  · have hnl : containsNewline ([] ++ (m1 ++ '\n' :: (m2 ++ ['\n']))) = true := by
      rw [containsNewline_iff]
      simp
    simp only [receiveMessageAux, hnl, if_true]
    rw [List.nil_append, takeToNewline_append_newline m1 _ h1]
  · rfl

/-- C10 witness: a pipelined `"B"` frame in the same batch as `"A"` is
dropped. -/
theorem receiveMessage_discards_pipelined_witness :
    receiveMessageAux [['A', '\n', 'B', '\n']] [] = (['A'], []) :=
  (receiveMessage_discards_pipelined ['A'] ['B'] (by decide) (by decide)).1

/-! ## Session-table lemmas -/

/-- Number of sessions whose `loggedInUser` equals `uid`. -/
def countBound (l : List (String × ClientSession)) (uid : String) : Nat :=
  l.countP (fun e => decide (e.2.loggedInUser = uid))

/-- Number of entries stored under key `k`. -/
def countKey (l : List (String × ClientSession)) (k : String) : Nat :=
  l.countP (fun e => decide (e.1 = k))

theorem mapFind_mem {α : Type} : ∀ {l : List (String × α)} {k : String} {v : α},
    mapFind k l = some v → (k, v) ∈ l := by
  intro l
  induction l with
  | nil => intro k v h; simp [mapFind] at h
  | cons e rest ih =>
    intro k v h
    simp only [mapFind] at h
    split_ifs at h with hk
    · obtain ⟨a, b⟩ := e
      simp only at hk
      subst hk
      simp only [Option.some.injEq] at h
      subst h
      exact List.mem_cons_self _ _
    · exact List.mem_cons_of_mem _ (ih h)

theorem mapFind_isSome_of_mem {α : Type} : ∀ {l : List (String × α)} {k : String} {v : α},
    (k, v) ∈ l → (mapFind k l).isSome := by
  intro l
  induction l with
  | nil => intro k v h; cases h
  | cons e rest ih =>
    intro k v h
    simp only [mapFind]
    by_cases hk : e.1 = k
    · simp [hk]
    · rw [if_neg hk]
      rcases List.mem_cons.mp h with h1 | h1
      · exact absurd (congrArg Prod.fst h1.symm) hk
      · exact ih h1

theorem findUserSession_spec : ∀ (l : List (String × ClientSession)) (uid x : String),
    findUserSession l uid = x → x ≠ "" →
      ∃ s, (x, s) ∈ l ∧ s.loggedInUser = uid ∧ s.loggedInUser ≠ "" := by
  intro l
  induction l with
  | nil => intro uid x h hx; simp [findUserSession] at h; exact absurd h.symm hx
  | cons e rest ih =>
    intro uid x h hx
    simp only [findUserSession] at h
    split_ifs at h with hcond
    · obtain ⟨a, b⟩ := e
      simp only at hcond h
      subst h
      exact ⟨b, List.mem_cons_self _ _, hcond.2, hcond.1⟩
    · rcases ih uid x h hx with ⟨s, hm, h1, h2⟩
      exact ⟨s, List.mem_cons_of_mem _ hm, h1, h2⟩

theorem countBound_updateSessions_le (sid uid : String)
    (f : ClientSession → ClientSession)
    (hf : ∀ s, (f s).loggedInUser = uid → s.loggedInUser = uid) :
    ∀ l : List (String × ClientSession),
      countBound (updateSessions sid f l) uid ≤ countBound l uid := by
  intro l
  induction l with
  | nil => simp [updateSessions, countBound]
  | cons e rest ih =>
    simp only [updateSessions, countBound, List.countP_cons] at ih ⊢
    by_cases hk : e.1 = sid
    · rw [if_pos hk]
      have hhead :
          (if decide ((e.1, f e.2).2.loggedInUser = uid) = true then 1 else 0) ≤
          (if decide (e.2.loggedInUser = uid) = true then 1 else 0) := by
        simp only [decide_eq_true_eq]
        by_cases hp : (f e.2).loggedInUser = uid
        · simp [hp, hf e.2 hp]
        · simp [hp]
      omega
    · rw [if_neg hk]
      omega

theorem countBound_updateSessions_le_add (sid uid : String)
    (f : ClientSession → ClientSession) :
    ∀ l : List (String × ClientSession),
      countBound (updateSessions sid f l) uid ≤ countBound l uid + countKey l sid := by
  intro l
  induction l with
  | nil => simp [updateSessions, countBound, countKey]
  | cons e rest ih =>
    simp only [updateSessions, countBound, countKey, List.countP_cons] at ih ⊢
    by_cases hk : e.1 = sid
    · rw [if_pos hk]
      have h1 : (if decide ((e.1, f e.2).2.loggedInUser = uid) = true then 1 else 0) ≤ 1 := by
        split_ifs <;> omega
      have h2 : (if decide (e.1 = sid) = true then 1 else 0) = 1 := by
        simp [hk]
      omega
    · rw [if_neg hk]
      omega

theorem countBound_eq_zero_of_not_found (uid : String) (hu : uid ≠ "") :
    ∀ l : List (String × ClientSession), (∀ e ∈ l, e.1 ≠ "") →
      findUserSession l uid = "" → countBound l uid = 0 := by
  intro l
  induction l with
  | nil => intro _ _; simp [countBound]
  | cons e rest ih =>
    intro hne h
    simp only [findUserSession] at h
    split_ifs at h with hcond
    · exact absurd h (hne e (List.mem_cons_self _ _))
    · have hrest := ih (fun d hd => hne d (List.mem_cons_of_mem _ hd)) h
      simp only [countBound, List.countP_cons, decide_eq_true_eq]
      have hhead : ¬ e.2.loggedInUser = uid := by
        intro hb
        exact hcond ⟨hb ▸ hu, hb⟩
      simp only [countBound] at hrest
      simp [hrest, hhead]

theorem countBound_clear (sid uid : String) (f : ClientSession → ClientSession)
    (hu : uid ≠ "") (hf : ∀ s0, (f s0).loggedInUser = "") :
    ∀ l : List (String × ClientSession),
      countBound (updateSessions sid f l) uid +
        List.countP (fun e => decide (e.1 = sid ∧ e.2.loggedInUser = uid)) l =
      countBound l uid := by
  intro l
  induction l with
  | nil => simp [updateSessions, countBound]
  | cons e rest ih =>
    simp only [updateSessions, countBound, List.countP_cons] at ih ⊢
    by_cases hk : e.1 = sid
    · rw [if_pos hk]
      have h1 : (if decide ((e.1, f e.2).2.loggedInUser = uid) = true then 1 else 0) = 0 := by
        have hne : ¬ (f e.2).loggedInUser = uid := by
          rw [hf e.2]
          exact fun hq => hu hq.symm
        simp [hne]
      have h2 : (if decide (e.1 = sid ∧ e.2.loggedInUser = uid) = true then 1 else 0) =
          (if decide (e.2.loggedInUser = uid) = true then 1 else 0) := by
        simp [hk]
      omega
    · rw [if_neg hk]
      have h2 : (if decide (e.1 = sid ∧ e.2.loggedInUser = uid) = true then 1 else 0) = 0 := by
        simp [hk]
      omega

theorem countBound_clear_eq_zero (sid uid : String) (s : ClientSession)
    (f : ClientSession → ClientSession) (hu : uid ≠ "")
    (hf : ∀ s0, (f s0).loggedInUser = "")
    (l : List (String × ClientSession)) (hb : countBound l uid ≤ 1)
    (hmem : (sid, s) ∈ l) (hs : s.loggedInUser = uid) :
    countBound (updateSessions sid f l) uid = 0 := by
  have hsplit := countBound_clear sid uid f hu hf l
  have hpos : 0 < List.countP (fun e => decide (e.1 = sid ∧ e.2.loggedInUser = uid)) l :=
    List.countP_pos_iff.mpr ⟨(sid, s), hmem, decide_eq_true ⟨rfl, hs⟩⟩
  omega

theorem countKey_le_one (k : String) :
    ∀ l : List (String × ClientSession), (l.map Prod.fst).Nodup → countKey l k ≤ 1 := by
  intro l
  induction l with
  | nil => intro _; simp [countKey]
  | cons e rest ih =>
    intro hn
    rw [List.map_cons, List.nodup_cons] at hn
    simp only [countKey, List.countP_cons, decide_eq_true_eq]
    by_cases hk : e.1 = k
    · have hz : countKey rest k = 0 := by
        rw [countKey, List.countP_eq_zero]
        intro d hd
        simp only [decide_eq_true_eq]
        intro hdk
        exact hn.1 (List.mem_map.mpr ⟨d, hd, (hdk.trans hk.symm)⟩)
      simp only [countKey] at hz
      simp [hz, hk]
    · have := ih hn.2
      simp only [countKey] at this
      simp [hk]
      omega

theorem keys_updateSessions (sid : String) (f : ClientSession → ClientSession) :
    ∀ l : List (String × ClientSession),
      (updateSessions sid f l).map Prod.fst = l.map Prod.fst := by
  intro l
  induction l with
  | nil => rfl
  | cons e rest ih =>
    simp only [updateSessions, List.map_cons, ih]
    by_cases hk : e.1 = sid
    · simp [hk]
    · simp [hk]

theorem mem_mapInsert {α : Type} (k : String) (v : α) :
    ∀ (l : List (String × α)) (e : String × α),
      e ∈ mapInsert k v l → e = (k, v) ∨ e ∈ l := by
  intro l
  induction l with
  | nil =>
    intro e h
    simp only [mapInsert] at h
    exact Or.inl (List.mem_singleton.mp h)
  | cons d rest ih =>
    intro e h
    simp only [mapInsert] at h
    split_ifs at h with hk
    · rcases List.mem_cons.mp h with h1 | h1
      · exact Or.inl h1
      · exact Or.inr (List.mem_cons_of_mem _ h1)
    · rcases List.mem_cons.mp h with h1 | h1
      · exact Or.inr (h1 ▸ List.mem_cons_self _ _)
      · rcases ih e h1 with h2 | h2
        · exact Or.inl h2
        · exact Or.inr (List.mem_cons_of_mem _ h2)

theorem mem_keys_mapInsert {α : Type} (k : String) (v : α) :
    ∀ (l : List (String × α)) (x : String),
      x ∈ (mapInsert k v l).map Prod.fst → x = k ∨ x ∈ l.map Prod.fst := by
  intro l x h
  rcases List.mem_map.mp h with ⟨e, he, hx⟩
  rcases mem_mapInsert k v l e he with h1 | h1
  · exact Or.inl (hx ▸ h1 ▸ rfl)
  · exact Or.inr (List.mem_map.mpr ⟨e, h1, hx⟩)

theorem nodup_keys_mapInsert {α : Type} (k : String) (v : α) :
    ∀ l : List (String × α), (l.map Prod.fst).Nodup →
      ((mapInsert k v l).map Prod.fst).Nodup := by
  intro l
  induction l with
  | nil => intro _; simp [mapInsert]
  | cons e rest ih =>
    intro hn
    rw [List.map_cons, List.nodup_cons] at hn
    simp only [mapInsert]
    split_ifs with hk
    · rw [List.map_cons, List.nodup_cons]
      exact ⟨hk ▸ hn.1, hn.2⟩
    · rw [List.map_cons, List.nodup_cons]
      refine ⟨?_, ih hn.2⟩
      intro hmem
      rcases mem_keys_mapInsert k v rest e.1 hmem with h1 | h1
      · exact hk h1
      · exact hn.1 h1

theorem mapEraseKey_sublist {α : Type} (k : String) :
    ∀ l : List (String × α), (mapEraseKey k l).Sublist l := by
  intro l
  induction l with
  | nil => simp [mapEraseKey]
  | cons e rest ih =>
    simp only [mapEraseKey]
    split_ifs with hk
    · exact List.sublist_cons_self e rest
    · exact List.Sublist.cons₂ e ih

/-! ## The single-binding invariant (C1) -/

/-- Central invariant: for each non-empty account id, at most one
session in the table is bound to it. -/
def SingleBinding (st : ServerState) : Prop :=
  ∀ uid, uid ≠ "" → countBound st.sessions uid ≤ 1

/-- Structural well-formedness of the session table: keys are the
non-empty generated session ids, stored without duplicates (the
`std::map` shape, plus the fact that `generateSessionId` never
returns the empty string). -/
def SessionTableWF (l : List (String × ClientSession)) : Prop :=
  (∀ e ∈ l, e.1 ≠ "") ∧ (l.map Prod.fst).Nodup

/-- The inductive invariant: table shape plus single binding. -/
def Inv (st : ServerState) : Prop :=
  SessionTableWF st.sessions ∧ SingleBinding st

theorem Inv_of_sessions_eq {st st' : ServerState}
    (h : st'.sessions = st.sessions) (hI : Inv st) : Inv st' := by
  refine ⟨h ▸ hI.1, ?_⟩
  intro uid hu
  show countBound st'.sessions uid ≤ 1
  rw [h]
  exact hI.2 uid hu

theorem SessionTableWF_updateSessions {l : List (String × ClientSession)}
    (sid : String) (f : ClientSession → ClientSession)
    (h : SessionTableWF l) : SessionTableWF (updateSessions sid f l) := by
  refine ⟨?_, (keys_updateSessions sid f l) ▸ h.2⟩
  intro e he
  have : e.1 ∈ (updateSessions sid f l).map Prod.fst := List.mem_map.mpr ⟨e, he, rfl⟩
  rw [keys_updateSessions sid f l] at this
  rcases List.mem_map.mp this with ⟨d, hd, hde⟩
  exact hde ▸ h.1 d hd

theorem Inv_setSessionUser_clear (st : ServerState) (sid : String) (hI : Inv st) :
    Inv (setSessionUser st sid "") := by
  refine ⟨SessionTableWF_updateSessions sid _ hI.1, ?_⟩
  intro uid hu
  calc countBound (updateSessions sid (fun s => { s with loggedInUser := "" }) st.sessions) uid
      ≤ countBound st.sessions uid :=
        countBound_updateSessions_le sid uid _ (fun s hq => absurd hq.symm hu) st.sessions
    _ ≤ 1 := hI.2 uid hu

theorem Inv_bind (st : ServerState) (sid uid : String) (hI : Inv st)
    (h0 : uid ≠ "" → countBound st.sessions uid = 0) :
    Inv (setSessionUser st sid uid) := by
  refine ⟨SessionTableWF_updateSessions sid _ hI.1, ?_⟩
  intro u hu
  by_cases huu : u = uid
  · subst huu
    calc countBound (updateSessions sid (fun s => { s with loggedInUser := u }) st.sessions) u
        ≤ countBound st.sessions u + countKey st.sessions sid :=
          countBound_updateSessions_le_add sid u _ st.sessions
      _ ≤ 0 + 1 := Nat.add_le_add (Nat.le_of_eq (h0 hu)) (countKey_le_one sid st.sessions hI.1.2)
      _ = 1 := by omega
  · calc countBound (updateSessions sid (fun s => { s with loggedInUser := uid }) st.sessions) u
        ≤ countBound st.sessions u := by
          refine countBound_updateSessions_le sid u _ ?_ st.sessions
          intro s hq
          exact absurd (show uid = u from hq).symm huu
      _ ≤ 1 := hI.2 u hu

/-! ## State characterizations of the operations -/

theorem registerUser_sessions (st : ServerState) (uid pw : String) :
    (registerUser st uid pw).2.sessions = st.sessions := by
  unfold registerUser
  split_ifs <;> rfl

theorem changePassword_sessions (st : ServerState) (sid a b : String) :
    (changePassword st sid a b).2.sessions = st.sessions := by
  unfold changePassword
  split
  · rfl
  · split_ifs
    any_goals rfl
    split
    · rfl
    · split_ifs <;> rfl

theorem setUserString_sessions (st : ServerState) (sid v : String) :
    (setUserString st sid v).2.sessions = st.sessions := by
  unfold setUserString
  split
  · rfl
  · split_ifs
    any_goals rfl
    split <;> rfl

theorem loginUser_state (st : ServerState) (sid uid pw : String) :
    (loginUser st sid uid pw).2 = st ∨
    ((loginUser st sid uid pw).2 = setSessionUser st sid uid ∧
      findUserSession st.sessions uid = "") := by
  simp only [loginUser]
  split
  · exact Or.inl rfl
  · rename_i s heq
    by_cases h1 : s.loggedInUser ≠ ""
    · rw [if_pos h1]
      exact Or.inl rfl
    · rw [if_neg h1]
      split
      · exact Or.inl rfl
      · rename_i u hequ
        by_cases h2 : ¬ u.password = pw
        · rw [if_pos h2]
          exact Or.inl rfl
        · rw [if_neg h2]
          by_cases h3 : findUserSession st.sessions uid ≠ ""
          · rw [if_pos h3]
            exact Or.inl rfl
          · rw [if_neg h3]
            exact Or.inr ⟨rfl, not_not.mp h3⟩

theorem logoutUser_state (st : ServerState) (sid : String) :
    (logoutUser st sid).2 = st ∨ (logoutUser st sid).2 = setSessionUser st sid "" := by
  simp only [logoutUser]
  split
  · exact Or.inl rfl
  · rename_i s heq
    by_cases h1 : ¬ s.loggedInUser ≠ ""
    · rw [if_pos h1]
      exact Or.inl rfl
    · rw [if_neg h1]
      exact Or.inr rfl

theorem deleteUser_sessions (st : ServerState) (sid uid pw : String) :
    (deleteUser st sid uid pw).2.sessions = st.sessions ∨
    (deleteUser st sid uid pw).2.sessions =
      updateSessions sid (fun s => { s with loggedInUser := "" }) st.sessions := by
  simp only [deleteUser]
  split
  · exact Or.inl rfl
  · rename_i s heq
    split
    · exact Or.inl rfl
    · rename_i u hequ
      by_cases h1 : ¬ u.password = pw
      · rw [if_pos h1]
        exact Or.inl rfl
      · rw [if_neg h1]
        by_cases h2 : s.loggedInUser = uid
        · rw [if_pos h2]
          exact Or.inr rfl
        · rw [if_neg h2]
          exact Or.inl rfl

theorem handleLoginConflict_state (st : ServerState) (sid uid pw : String) (force : Bool) :
    (handleLoginConflict st sid uid pw force).2.1 = st ∨
    ((handleLoginConflict st sid uid pw force).2.1 = setSessionUser st sid uid ∧
      findUserSession st.sessions uid = "") ∨
    (findUserSession st.sessions uid ≠ "" ∧
      (handleLoginConflict st sid uid pw force).2.1 =
        setSessionUser
          { st with
            sessions := updateSessions (findUserSession st.sessions uid)
              (fun s0 => { s0 with loggedInUser := "", isActive := false }) st.sessions }
          sid uid) := by
  simp only [handleLoginConflict]
  split
  · exact Or.inl rfl
  · rename_i s heq
    by_cases h1 : s.loggedInUser ≠ ""
    · rw [if_pos h1]
      exact Or.inl rfl
    · rw [if_neg h1]
      split
      · exact Or.inl rfl
      · rename_i u hequ
        by_cases h2 : ¬ u.password = pw
        · rw [if_pos h2]
          exact Or.inl rfl
        · rw [if_neg h2]
          by_cases h3 : findUserSession st.sessions uid ≠ ""
          · rw [if_pos h3]
            by_cases h4 : ¬ force = true
            · rw [if_pos h4]
              exact Or.inl rfl
            · rw [if_neg h4]
              split
              · rename_i hex
                rcases findUserSession_spec st.sessions uid (findUserSession st.sessions uid)
                  rfl h3 with ⟨s0, hmem, _, _⟩
                have hsome := mapFind_isSome_of_mem hmem
                rw [hex] at hsome
                cases hsome
              · exact Or.inr (Or.inr ⟨h3, rfl⟩)
          · rw [if_neg h3]
            exact Or.inr (Or.inl ⟨rfl, not_not.mp h3⟩)

/-! ## Reachable states and the invariant theorem -/

/-- One server operation, as named by the claim: login, forced
takeover, logout, account deletion, session create/remove, plus the
remaining commands (register, password change, profile string, QUIT)
for completeness. -/
inductive Step : ServerState → ServerState → Prop where
  | register (st : ServerState) (uid pw : String) : Step st (registerUser st uid pw).2
  | login (st : ServerState) (sid uid pw : String) : Step st (loginUser st sid uid pw).2
  | forceLogin (st : ServerState) (sid uid pw : String) (force : Bool) :
      Step st (handleLoginConflict st sid uid pw force).2.1
  | logout (st : ServerState) (sid : String) : Step st (logoutUser st sid).2
  | deleteAccount (st : ServerState) (sid uid pw : String) :
      Step st (deleteUser st sid uid pw).2
  | changePw (st : ServerState) (sid oldPw newPw : String) :
      Step st (changePassword st sid oldPw newPw).2
  | setStr (st : ServerState) (sid v : String) : Step st (setUserString st sid v).2
  | quitCmd (st : ServerState) (sid : String) : Step st (sessionDeactivate st sid)
  | create (st : ServerState) (sid : String) (sock : Nat) (h : sid ≠ "") :
      Step st (sessionCreate st sid sock)
  | remove (st : ServerState) (sid : String) : Step st (sessionRemove st sid)

/-- Server boot state: accounts loaded from file, no live session. -/
def initState (users : List (String × User)) : ServerState := ⟨users, []⟩

/-- States reachable from boot by any sequence of operations. -/
def Reachable (users : List (String × User)) (st : ServerState) : Prop :=
  Relation.ReflTransGen Step (initState users) st

theorem Inv_sessionDeactivate (st : ServerState) (sid : String) (hI : Inv st) :
    Inv (sessionDeactivate st sid) := by
  refine ⟨SessionTableWF_updateSessions sid _ hI.1, ?_⟩
  intro uid hu
  calc countBound (updateSessions sid (fun s => { s with isActive := false }) st.sessions) uid
      ≤ countBound st.sessions uid :=
        countBound_updateSessions_le sid uid (fun s => { s with isActive := false })
          (fun s hq => hq) st.sessions
    _ ≤ 1 := hI.2 uid hu

theorem countBound_mapInsert_fresh_le (sid uid : String) (v : ClientSession)
    (hv : v.loggedInUser ≠ uid) :
    ∀ l : List (String × ClientSession),
      countBound (mapInsert sid v l) uid ≤ countBound l uid := by
  intro l
  induction l with
  | nil => simp [mapInsert, countBound, hv]
  | cons e rest ih =>
    simp only [mapInsert, countBound, List.countP_cons] at ih ⊢
    by_cases hk : e.1 = sid
    · rw [if_pos hk]
      rw [List.countP_cons]
      have h1 : (if decide ((sid, v).2.loggedInUser = uid) = true then 1 else 0) = 0 := by
        simp only [decide_eq_true_eq]
        simp [hv]
      omega
    · rw [if_neg hk]
      rw [List.countP_cons]
      omega

theorem Inv_sessionCreate (st : ServerState) (sid : String) (sock : Nat)
    (hsid : sid ≠ "") (hI : Inv st) : Inv (sessionCreate st sid sock) := by
  refine ⟨⟨?_, nodup_keys_mapInsert sid _ st.sessions hI.1.2⟩, ?_⟩
  · intro e he
    rcases mem_mapInsert sid _ st.sessions e he with h1 | h1
    · rw [h1]
      exact hsid
    · exact hI.1.1 e h1
  · intro uid hu
    calc countBound (mapInsert sid ⟨sock, sid, "", true⟩ st.sessions) uid
        ≤ countBound st.sessions uid :=
          countBound_mapInsert_fresh_le sid uid _ (fun h => hu h.symm) st.sessions
      _ ≤ 1 := hI.2 uid hu

theorem Inv_sessionRemove (st : ServerState) (sid : String) (hI : Inv st) :
    Inv (sessionRemove st sid) := by
  have hsub := mapEraseKey_sublist sid st.sessions
  refine ⟨⟨?_, List.Nodup.sublist (List.Sublist.map Prod.fst hsub) hI.1.2⟩, ?_⟩
  · intro e he
    exact hI.1.1 e (hsub.mem he)
  · intro uid hu
    calc countBound (mapEraseKey sid st.sessions) uid
        ≤ countBound st.sessions uid := List.Sublist.countP_le _ hsub
      _ ≤ 1 := hI.2 uid hu

theorem Inv_step {st st' : ServerState} (h : Step st st') (hI : Inv st) : Inv st' := by
  cases h with
  | register uid pw => exact Inv_of_sessions_eq (registerUser_sessions st uid pw) hI
  | changePw sid a b => exact Inv_of_sessions_eq (changePassword_sessions st sid a b) hI
  | setStr sid v => exact Inv_of_sessions_eq (setUserString_sessions st sid v) hI
  | quitCmd sid => exact Inv_sessionDeactivate st sid hI
  | create sid sock hs => exact Inv_sessionCreate st sid sock hs hI
  | remove sid => exact Inv_sessionRemove st sid hI
  | logout sid =>
    rcases logoutUser_state st sid with h1 | h1
    · rw [h1]
      exact hI
    · rw [h1]
      exact Inv_setSessionUser_clear st sid hI
  | deleteAccount sid uid pw =>
    rcases deleteUser_sessions st sid uid pw with h1 | h1
    · exact Inv_of_sessions_eq h1 hI
    · have h2 : (deleteUser st sid uid pw).2.sessions = (setSessionUser st sid "").sessions := h1
      exact Inv_of_sessions_eq h2 (Inv_setSessionUser_clear st sid hI)
  | login sid uid pw =>
    rcases loginUser_state st sid uid pw with h1 | ⟨h1, h2⟩
    · rw [h1]
      exact hI
    · rw [h1]
      refine Inv_bind st sid uid hI ?_
      intro hu
      exact countBound_eq_zero_of_not_found uid hu st.sessions hI.1.1 h2
  | forceLogin sid uid pw force =>
    rcases handleLoginConflict_state st sid uid pw force with h1 | ⟨h1, h2⟩ | ⟨h2, h1⟩
    · rw [h1]
      exact hI
    · rw [h1]
      refine Inv_bind st sid uid hI ?_
      intro hu
      exact countBound_eq_zero_of_not_found uid hu st.sessions hI.1.1 h2
    · rw [h1]
      rcases findUserSession_spec st.sessions uid (findUserSession st.sessions uid)
        rfl h2 with ⟨s0, hmem, hbound, hbne⟩
      have hu : uid ≠ "" := hbound ▸ hbne
      have hI1 : Inv { st with
          sessions := updateSessions (findUserSession st.sessions uid)
            (fun s0 => { s0 with loggedInUser := "", isActive := false }) st.sessions } := by
        refine ⟨SessionTableWF_updateSessions _ _ hI.1, ?_⟩
        intro u hu'
        calc countBound (updateSessions (findUserSession st.sessions uid)
              (fun s0 => { s0 with loggedInUser := "", isActive := false }) st.sessions) u
            ≤ countBound st.sessions u :=
              countBound_updateSessions_le _ u
                (fun s0 => { s0 with loggedInUser := "", isActive := false })
                (fun s hq => absurd hq.symm hu') st.sessions
          _ ≤ 1 := hI.2 u hu'
      refine Inv_bind _ sid uid hI1 ?_
      intro _
      exact countBound_clear_eq_zero (findUserSession st.sessions uid) uid s0
        (fun s1 => { s1 with loggedInUser := "", isActive := false }) hu
        (fun s1 => rfl) st.sessions (hI.2 uid hu) hmem hbound

/-- C1: in every reachable server state (any loaded account table, no
session at boot, then any sequence of login / forced takeover /
logout / delete / session create / session remove and the remaining
commands), each non-empty account id is bound by at most one session
in the session table. -/
theorem single_binding_invariant (users : List (String × User)) (st : ServerState)
    (h : Reachable users st) : SingleBinding st := by
  have hInv : Inv st := by
    induction h with
    | refl =>
      refine ⟨⟨fun e he => absurd he (List.not_mem_nil e), by simp [initState]⟩, ?_⟩
      intro uid _
      simp [initState, countBound]
    | tail _ hs ih => exact Inv_step hs ih
  exact hInv.2

/-- C1 witness: the invariant at the concrete reachable state built
by creating session `"A"` and logging it in as `"alice"`. -/
theorem single_binding_invariant_witness :
    SingleBinding ((loginUser (sessionCreate
      (initState [("alice", ⟨"alice", "pw", ""⟩)]) "A" 7) "A" "alice" "pw").2) :=
  single_binding_invariant [("alice", ⟨"alice", "pw", ""⟩)] _
    (Relation.ReflTransGen.tail
      (Relation.ReflTransGen.tail Relation.ReflTransGen.refl
        (Step.create _ "A" 7 (by decide)))
      (Step.login _ "A" "alice" "pw"))

/-! ## FORCE_LOGIN with forceTakeover = false (C2) -/

/-- C2 counterexample state: the account `"alice"`/`"pw"` exists and the
only session `"S"` is unauthenticated, so no session is bound to
`"alice"`. -/
def conflictFreeState : ServerState :=
  ⟨[("alice", ⟨"alice", "pw", ""⟩)], [("S", ⟨0, "S", "", true⟩)]⟩

/-- C2 counterexample: a FORCE_LOGIN resolver call with
`forceTakeover = false` by the unauthenticated session `"S"`, with the
account present and the password matching, does not return `Cancelled`
and does mutate state: because no session is bound to `"alice"`, the
resolver falls through to the login path, binds `"alice"` to `"S"` and
reports success. -/
theorem force_cancel_no_conflict_mutates :
    (handleLoginConflict conflictFreeState "S" "alice" "pw" false).1 =
      "SUCCESS|登录成功，已挤占原会话" ∧
    (handleLoginConflict conflictFreeState "S" "alice" "pw" false).1 ≠ "ERROR|登录已取消" ∧
    (handleLoginConflict conflictFreeState "S" "alice" "pw" false).2.1 ≠ conflictFreeState := by
  refine ⟨by decide, by decide, by decide⟩

/-- C2 (amended): for a FORCE_LOGIN resolver call with
`forceTakeover = false` by an unauthenticated session, when the account
exists and the password matches: if some session is currently bound to
the account the call returns `Cancelled` (`"ERROR|登录已取消"`) and
mutates nothing; if no session is bound, the call instead binds the
account to the calling session and returns success. -/
theorem handleLoginConflict_cancel (st : ServerState) (sid uid pw : String)
    (s : ClientSession) (u : User)
    (hs : mapFind sid st.sessions = some s) (hanon : s.loggedInUser = "")
    (hu : mapFind uid st.users = some u) (hpw : u.password = pw) :
    (findUserSession st.sessions uid ≠ "" →
      handleLoginConflict st sid uid pw false = ("ERROR|登录已取消", st, [])) ∧
    (findUserSession st.sessions uid = "" →
      handleLoginConflict st sid uid pw false =
        ("SUCCESS|登录成功，已挤占原会话", setSessionUser st sid uid, [])) := by
  constructor
  · intro h3
    simp only [handleLoginConflict, hs, hu]
    rw [if_neg (by simp [hanon]), if_neg (by simp [hpw]), if_pos h3,
      if_pos (by decide)]
  · intro h3
    simp only [handleLoginConflict, hs, hu]
    rw [if_neg (by simp [hanon]), if_neg (by simp [hpw]), if_neg (by simp [h3])]

/-- C2 witness state: `"A"` is bound to `"alice"`, `"B"` is anonymous. -/
def conflictState : ServerState :=
  ⟨[("alice", ⟨"alice", "pw", ""⟩)],
   [("A", ⟨1, "A", "alice", true⟩), ("B", ⟨2, "B", "", true⟩)]⟩

/-- C2 witness: the cancel branch at a concrete conflicted state. -/
theorem handleLoginConflict_cancel_witness :
    handleLoginConflict conflictState "B" "alice" "pw" false =
      ("ERROR|登录已取消", conflictState, []) :=
  (handleLoginConflict_cancel conflictState "B" "alice" "pw"
    ⟨2, "B", "", true⟩ ⟨"alice", "pw", ""⟩ rfl rfl rfl rfl).1 (by decide)

/-! ## Session-id generation (C3) -/

theorem mapInsert_mapInsert_self {α : Type} (k : String) (v1 v2 : α) :
    ∀ l : List (String × α), mapInsert k v2 (mapInsert k v1 l) = mapInsert k v2 l := by
  intro l
  induction l with
  | nil => simp [mapInsert]
  | cons e rest ih =>
    simp only [mapInsert]
    by_cases hk : e.1 = k
    · rw [if_pos hk]
      simp [mapInsert, hk]
    · rw [if_neg hk]
      simp only [mapInsert, if_neg hk, ih]

/-- C3 counterexample: a generated session id has 16 hex characters —
the fixed-length hex rendering of a 64-bit value, not of a 128-bit one
(which would have 32) — and ids are not unique per connection: with the
per-call `srand(time(0))` re-seeding, two connections accepted in the
same second run the identical `rand` stream, get the same id, and the
second registration overwrites the first, leaving a single table
entry for two live connections. -/
theorem session_id_sixteen_hex_collision :
    (generateSessionId (fun i => i)).length = 16 ∧
    ¬ (generateSessionId (fun i => i)).length = 32 ∧
    (sessionCreate (sessionCreate (initState []) (generateSessionId (fun i => i)) 1)
        (generateSessionId (fun i => i)) 2).sessions.length = 1 := by
  refine ⟨by decide, by decide, by decide⟩

/-- C3 (amended): every generated session id is a 16-character string
over the hexadecimal alphabet (64-bit-equivalent, not 128); and
uniqueness is not guaranteed by construction — registering a second
session under an already-present id silently replaces the first
session's table entry. -/
theorem generateSessionId_spec :
    (∀ r : Nat → Nat, (generateSessionId r).length = 16 ∧
      (generateSessionId r).data.all (fun c => decide (c ∈ hexDigits)) = true) ∧
    (∀ (st : ServerState) (sid : String) (a b : Nat),
      sessionCreate (sessionCreate st sid a) sid b = sessionCreate st sid b) := by
  constructor
  · intro r
    constructor
    · simp [generateSessionId, String.length]
    · rw [List.all_eq_true]
      intro c hc
      simp only [generateSessionId] at hc
      rcases List.mem_map.mp hc with ⟨i, _, hci⟩
      rw [decide_eq_true_eq, ← hci]
      rcases hg : hexDigits[r i % 16]? with _ | d
      · rw [List.getD_eq_getElem?_getD, hg]
        decide
      · rw [List.getD_eq_getElem?_getD, hg]
        exact List.getElem?_mem hg
  · intro st sid a b
    simp only [sessionCreate, mapInsert_mapInsert_self]

/-! ## Login decision order (C5) -/

/-- C5: `loginUser` follows the documented decision order: an
already-authenticated calling session is rejected first, regardless of
credentials; then unknown account; then wrong password; then, if
another session is bound to the account, it returns `CONFLICT` carrying
that session's id without mutating anything; otherwise it binds the
account to the calling session and succeeds. -/
theorem loginUser_decision_order (st : ServerState) (sid uid pw : String)
    (s : ClientSession) (hs : mapFind sid st.sessions = some s) :
    (s.loggedInUser ≠ "" → loginUser st sid uid pw = ("ERROR|当前会话已有用户登录", st)) ∧
    (s.loggedInUser = "" → mapFind uid st.users = none →
      loginUser st sid uid pw = ("ERROR|用户不存在", st)) ∧
    (∀ u, s.loggedInUser = "" → mapFind uid st.users = some u → ¬ u.password = pw →
      loginUser st sid uid pw = ("ERROR|密码错误", st)) ∧
    (∀ u, s.loggedInUser = "" → mapFind uid st.users = some u → u.password = pw →
      findUserSession st.sessions uid ≠ "" →
      loginUser st sid uid pw =
        ("CONFLICT|用户已在其他客户端登录|" ++ findUserSession st.sessions uid ++
          "|是否挤占下线？(Y/N)", st)) ∧
    (∀ u, s.loggedInUser = "" → mapFind uid st.users = some u → u.password = pw →
      findUserSession st.sessions uid = "" →
      loginUser st sid uid pw = ("SUCCESS|登录成功", setSessionUser st sid uid)) := by
  refine ⟨?_, ?_, ?_, ?_, ?_⟩
  · intro h1
    simp only [loginUser, hs]
    rw [if_pos h1]
  · intro h1 h2
    simp only [loginUser, hs, h2]
    rw [if_neg (by simp [h1])]
  · intro u h1 h2 h3
    simp only [loginUser, hs, h2]
    rw [if_neg (by simp [h1]), if_pos h3]
  · intro u h1 h2 h3 h4
    simp only [loginUser, hs, h2]
    rw [if_neg (by simp [h1]), if_neg (by simp [h3]), if_pos h4]
  · intro u h1 h2 h3 h4
    simp only [loginUser, hs, h2]
    rw [if_neg (by simp [h1]), if_neg (by simp [h3]), if_neg (by simp [h4])]

/-- C5 witness: the conflict branch at the concrete two-session state —
the `CONFLICT` response carries the bound session's id and nothing is
mutated. -/
theorem loginUser_decision_order_witness :
    loginUser conflictState "B" "alice" "pw" =
      ("CONFLICT|用户已在其他客户端登录|" ++ findUserSession conflictState.sessions "alice" ++
        "|是否挤占下线？(Y/N)", conflictState) :=
  (loginUser_decision_order conflictState "B" "alice" "pw" ⟨2, "B", "", true⟩ rfl).2.2.2.1
    ⟨"alice", "pw", ""⟩ rfl rfl rfl (by decide)

/-! ## Lookup/update commutation lemmas -/

theorem mapFind_updateSessions_self (k : String) (f : ClientSession → ClientSession) :
    ∀ l : List (String × ClientSession),
      mapFind k (updateSessions k f l) = Option.map f (mapFind k l) := by
  intro l
  induction l with
  | nil => simp [updateSessions, mapFind]
  | cons e rest ih =>
    simp only [updateSessions, mapFind]
    by_cases hk : e.1 = k
    · rw [if_pos hk]
      simp [mapFind, hk]
    · rw [if_neg hk]
      simp only [mapFind, if_neg hk, ih]

theorem mapFind_updateSessions_ne (k x : String) (f : ClientSession → ClientSession)
    (hx : x ≠ k) :
    ∀ l : List (String × ClientSession),
      mapFind x (updateSessions k f l) = mapFind x l := by
  intro l
  induction l with
  | nil => simp [updateSessions, mapFind]
  | cons e rest ih =>
    simp only [updateSessions, mapFind]
    by_cases hk : e.1 = k
    · rw [if_pos hk]
      have hne1 : ¬ e.1 = x := by
        rw [hk]
        exact fun h => hx h.symm
      simp only [mapFind, if_neg hne1, ih]
    · rw [if_neg hk]
      simp only [mapFind, ih]

theorem mapFind_mapInsert_self {α : Type} (k : String) (v : α) :
    ∀ l : List (String × α), mapFind k (mapInsert k v l) = some v := by
  intro l
  induction l with
  | nil => simp [mapInsert, mapFind]
  | cons e rest ih =>
    simp only [mapInsert]
    by_cases hk : e.1 = k
    · rw [if_pos hk]
      simp [mapFind]
    · rw [if_neg hk]
      simp only [mapFind, if_neg hk, ih]

theorem mapFind_mapInsert_ne {α : Type} (k x : String) (v : α) (hx : x ≠ k) :
    ∀ l : List (String × α), mapFind x (mapInsert k v l) = mapFind x l := by
  intro l
  induction l with
  | nil =>
    simp only [mapInsert, mapFind]
    rw [if_neg (fun h : k = x => hx h.symm)]
  | cons e rest ih =>
    simp only [mapInsert]
    by_cases hk : e.1 = k
    · rw [if_pos hk]
      simp only [mapFind, if_neg (fun h : k = x => hx h.symm)]
      rw [if_neg (hk ▸ fun h : k = x => hx h.symm)]
    · rw [if_neg hk]
      simp only [mapFind, ih]

theorem mapFind_eq_none_of_not_mem_keys {α : Type} (k : String) :
    ∀ l : List (String × α), k ∉ l.map Prod.fst → mapFind k l = none := by
  intro l
  induction l with
  | nil => intro _; rfl
  | cons e rest ih =>
    intro h
    rw [List.map_cons, List.mem_cons] at h
    push_neg at h
    simp only [mapFind]
    rw [if_neg (fun hq : e.1 = k => h.1 hq.symm)]
    exact ih h.2

theorem mapFind_mapEraseKey_self {α : Type} (k : String) :
    ∀ l : List (String × α), (l.map Prod.fst).Nodup →
      mapFind k (mapEraseKey k l) = none := by
  intro l
  induction l with
  | nil => intro _; rfl
  | cons e rest ih =>
    intro hn
    rw [List.map_cons, List.nodup_cons] at hn
    simp only [mapEraseKey]
    by_cases hk : e.1 = k
    · rw [if_pos hk]
      refine mapFind_eq_none_of_not_mem_keys k rest ?_
      exact fun hmem => hn.1 (hk ▸ hmem)
    · rw [if_neg hk]
      simp only [mapFind, if_neg hk]
      exact ih hn.2

theorem findUserSession_empty_of_countBound_zero (l : List (String × ClientSession))
    (uid : String) (h : countBound l uid = 0) : findUserSession l uid = "" := by
  by_cases hf : findUserSession l uid = ""
  · exact hf
  · rcases findUserSession_spec l uid _ rfl hf with ⟨s, hmem, hb, _⟩
    have hpos : 0 < countBound l uid :=
      List.countP_pos_iff.mpr ⟨_, hmem, decide_eq_true hb⟩
    omega

/-! ## CHANGE_PASSWORD with a wrong old password (C7) -/

/-- C7: for a session logged in as an existing account, CHANGE_PASSWORD
with a wrong old password returns an `ERROR` response and leaves the
entire state (in particular the account store and its password)
unchanged, and the old password still authenticates: once the session
logs out, LOGIN with the old password succeeds.  (The single-binding
hypothesis is the C1 invariant of reachable states.) -/
theorem changePassword_wrong_old_password (st : ServerState)
    (sid uid oldPw newPw pw : String) (s : ClientSession) (u : User)
    (hs : mapFind sid st.sessions = some s) (hlogged : s.loggedInUser = uid)
    (huid : uid ≠ "") (hu : mapFind uid st.users = some u) (hpw : u.password = pw)
    (hwrong : oldPw ≠ pw) (hsb : countBound st.sessions uid ≤ 1) :
    ((changePassword st sid oldPw newPw).1 = "ERROR|密码不能为空" ∨
      (changePassword st sid oldPw newPw).1 = "ERROR|旧密码错误") ∧
    (changePassword st sid oldPw newPw).2 = st ∧
    loginUser (logoutUser st sid).2 sid uid pw =
      ("SUCCESS|登录成功", setSessionUser (logoutUser st sid).2 sid uid) := by
  have hlogin : ¬ ¬ s.loggedInUser ≠ "" := by
    simp [hlogged, huid]
  have hcp : (changePassword st sid oldPw newPw) =
      (if oldPw = "" ∨ newPw = "" then ("ERROR|密码不能为空", st)
       else ("ERROR|旧密码错误", st)) := by
    simp only [changePassword, hs]
    rw [if_neg hlogin]
    by_cases hempty : oldPw = "" ∨ newPw = ""
    · rw [if_pos hempty, if_pos hempty]
    · rw [if_neg hempty, if_neg hempty]
      simp only [hlogged, hu]
      rw [if_pos (show ¬ u.password = oldPw by
        rw [hpw]
        exact fun h => hwrong h.symm)]
  have hlogout : (logoutUser st sid).2 = setSessionUser st sid "" := by
    simp only [logoutUser, hs]
    rw [if_neg hlogin]
  refine ⟨?_, ?_, ?_⟩
  · rw [hcp]
    by_cases hempty : oldPw = "" ∨ newPw = ""
    · rw [if_pos hempty]
      exact Or.inl rfl
    · rw [if_neg hempty]
      exact Or.inr rfl
  · rw [hcp]
    by_cases hempty : oldPw = "" ∨ newPw = ""
    · rw [if_pos hempty]
    · rw [if_neg hempty]
  · rw [hlogout]
    have hfind1 : mapFind sid (setSessionUser st sid "").sessions =
        some { s with loggedInUser := "" } := by
      show mapFind sid (updateSessions sid _ st.sessions) = _
      rw [mapFind_updateSessions_self sid _ st.sessions, hs]
      rfl
    have hcount0 : countBound (setSessionUser st sid "").sessions uid = 0 := by
      show countBound (updateSessions sid _ st.sessions) uid = 0
      exact countBound_clear_eq_zero sid uid s _ huid (fun s1 => rfl) st.sessions hsb
        (mapFind_mem hs) hlogged
    have hnofind : findUserSession (setSessionUser st sid "").sessions uid = "" :=
      findUserSession_empty_of_countBound_zero _ uid hcount0
    have husers2 : mapFind uid (setSessionUser st sid "").users = some u := hu
    simp only [loginUser, hfind1, husers2]
    rw [if_neg (show ¬ (({ s with loggedInUser := "" } : ClientSession).loggedInUser ≠ "") by
      simp)]
    rw [if_neg (by simp [hpw]), if_neg (by simp [hnofind])]

/-- C7 witness state: one session `"A"` logged in as `"alice"`. -/
def loggedInState : ServerState :=
  ⟨[("alice", ⟨"alice", "pw", ""⟩)], [("A", ⟨1, "A", "alice", true⟩)]⟩

/-- C7 witness: the wrong-old-password scenario at a concrete state. -/
theorem changePassword_wrong_old_password_witness :
    ((changePassword loggedInState "A" "bad" "new").1 = "ERROR|密码不能为空" ∨
      (changePassword loggedInState "A" "bad" "new").1 = "ERROR|旧密码错误") ∧
    (changePassword loggedInState "A" "bad" "new").2 = loggedInState ∧
    loginUser (logoutUser loggedInState "A").2 "A" "alice" "pw" =
      ("SUCCESS|登录成功", setSessionUser (logoutUser loggedInState "A").2 "A" "alice") :=
  changePassword_wrong_old_password loggedInState "A" "alice" "bad" "new" "pw"
    ⟨1, "A", "alice", true⟩ ⟨"alice", "pw", ""⟩ rfl rfl (by decide) rfl rfl
    (by decide) (by decide)

/-! ## Frame effect of account deletion (C9) -/

/-- C9: a successful DELETE of account `uid` by session `sidS` removes
the account from the store, while in the session table only the entry
keyed `sidS` can change; every other session keeps its fields.  In
particular a different session `sidT` logged in as `uid` keeps its
non-empty binding to the now-deleted account, and its subsequent
GET_STRING yields the user-not-found error rather than the
not-logged-in error. -/
theorem deleteUser_frame_effect (st : ServerState) (sidS sidT uid pw : String)
    (sS sT : ClientSession) (u : User)
    (hS : mapFind sidS st.sessions = some sS)
    (hT : mapFind sidT st.sessions = some sT) (hne : sidT ≠ sidS)
    (hTb : sT.loggedInUser = uid) (huid : uid ≠ "")
    (hu : mapFind uid st.users = some u) (hpw : u.password = pw)
    (hnodup : (st.users.map Prod.fst).Nodup) :
    (deleteUser st sidS uid pw).1 = "SUCCESS|用户注销成功" ∧
    (deleteUser st sidS uid pw).2.users = mapEraseKey uid st.users ∧
    (∀ k, k ≠ sidS →
      mapFind k (deleteUser st sidS uid pw).2.sessions = mapFind k st.sessions) ∧
    mapFind sidT (deleteUser st sidS uid pw).2.sessions = some sT ∧
    getUserString (deleteUser st sidS uid pw).2 sidT = "ERROR|用户不存在" := by
  have hdel : deleteUser st sidS uid pw =
      ("SUCCESS|用户注销成功",
        { (if sS.loggedInUser = uid then setSessionUser st sidS "" else st) with
          users := mapEraseKey uid
            (if sS.loggedInUser = uid then setSessionUser st sidS "" else st).users }) := by
    simp only [deleteUser, hS, hu]
    rw [if_neg (by simp [hpw])]
  have hsessions : (deleteUser st sidS uid pw).2.sessions =
      (if sS.loggedInUser = uid then setSessionUser st sidS "" else st).sessions := by
    rw [hdel]
  have husers : (deleteUser st sidS uid pw).2.users = mapEraseKey uid st.users := by
    rw [hdel]
    by_cases hq : sS.loggedInUser = uid
    · rw [if_pos hq]
      rfl
    · rw [if_neg hq]
  have hother : ∀ k, k ≠ sidS →
      mapFind k (deleteUser st sidS uid pw).2.sessions = mapFind k st.sessions := by
    intro k hk
    rw [hsessions]
    by_cases hq : sS.loggedInUser = uid
    · rw [if_pos hq]
      exact mapFind_updateSessions_ne sidS k _ hk st.sessions
    · rw [if_neg hq]
  have hTkeeps : mapFind sidT (deleteUser st sidS uid pw).2.sessions = some sT := by
    rw [hother sidT hne, hT]
  refine ⟨by rw [hdel], husers, hother, hTkeeps, ?_⟩
  simp only [getUserString, hTkeeps]
  rw [if_neg (by simp [hTb, huid])]
  rw [hTb, husers, mapFind_mapEraseKey_self uid st.users hnodup]

/-- C9 witness state: `"A"` anonymous, `"B"` logged in as `"alice"`. -/
def twoSessionState : ServerState :=
  ⟨[("alice", ⟨"alice", "pw", "hello"⟩)],
   [("A", ⟨1, "A", "", true⟩), ("B", ⟨2, "B", "alice", true⟩)]⟩

/-- C9 witness: after `"A"` deletes `"alice"`, session `"B"` keeps its
stale binding and GET_STRING reports the user-not-found error. -/
theorem deleteUser_frame_effect_witness :
    (deleteUser twoSessionState "A" "alice" "pw").1 = "SUCCESS|用户注销成功" ∧
    mapFind "B" (deleteUser twoSessionState "A" "alice" "pw").2.sessions =
      some ⟨2, "B", "alice", true⟩ ∧
    getUserString (deleteUser twoSessionState "A" "alice" "pw").2 "B" =
      "ERROR|用户不存在" := by
  have h := deleteUser_frame_effect twoSessionState "A" "B" "alice" "pw"
    ⟨1, "A", "", true⟩ ⟨2, "B", "alice", true⟩ ⟨"alice", "pw", "hello"⟩
    rfl rfl (by decide) rfl (by decide) rfl rfl (by decide)
  exact ⟨h.1, h.2.2.2.1, h.2.2.2.2⟩

/-! ## The dispatch loop as an interleaved transition system (C8)

`handleClient` runs, per connection, the loop
`while (running && session->getIsActive()) { receive; process }`:
the `active` guard is checked before entering the blocking receive,
not again before `processClientMessage`.  The model makes the two
halves of one iteration separate atomic events, so a forced takeover
by another session can fall between a worker's guard check and the
delivery of its received frame. -/

/-- The loop guard `session->getIsActive()` read from the shared
table (false as well when the session is gone). -/
def sessionActiveIn (l : List (String × ClientSession)) (sid : String) : Bool :=
  match mapFind sid l with
  | some s => s.isActive
  | none => false

/-- Guard value in a server state. -/
def sessionActive (st : ServerState) (sid : String) : Bool :=
  sessionActiveIn st.sessions sid

theorem sessionActiveIn_updateSessions_mono (k x : String)
    (f : ClientSession → ClientSession)
    (hf : ∀ s, (f s).isActive = true → s.isActive = true)
    (l : List (String × ClientSession)) (h : sessionActiveIn l x = false) :
    sessionActiveIn (updateSessions k f l) x = false := by
  by_cases hx : x = k
  · subst hx
    rw [sessionActiveIn, mapFind_updateSessions_self x f l]
    cases hm : mapFind x l with
    | none => rfl
    | some s =>
      show (f s).isActive = false
      cases hfa : (f s).isActive with
      | false => rfl
      | true =>
        have h2 : s.isActive = false := by
          rw [sessionActiveIn, hm] at h
          exact h
        exact absurd (hf s hfa) (by simp [h2])
  · rw [sessionActiveIn, mapFind_updateSessions_ne k x f hx l]
    rw [sessionActiveIn] at h
    exact h

theorem sessionActive_registerUser (st : ServerState) (x a b : String)
    (h : sessionActive st x = false) :
    sessionActive (registerUser st a b).2 x = false := by
  rw [sessionActive, registerUser_sessions]
  exact h

theorem sessionActive_loginUser (st : ServerState) (x sid uid pw : String)
    (h : sessionActive st x = false) :
    sessionActive (loginUser st sid uid pw).2 x = false := by
  rcases loginUser_state st sid uid pw with h1 | ⟨h1, _⟩
  · rw [h1]
    exact h
  · rw [h1]
    exact sessionActiveIn_updateSessions_mono sid x
      (fun s => { s with loggedInUser := uid }) (fun s ht => ht) st.sessions h

theorem sessionActive_logoutUser (st : ServerState) (x sid : String)
    (h : sessionActive st x = false) :
    sessionActive (logoutUser st sid).2 x = false := by
  rcases logoutUser_state st sid with h1 | h1
  · rw [h1]
    exact h
  · rw [h1]
    exact sessionActiveIn_updateSessions_mono sid x
      (fun s => { s with loggedInUser := "" }) (fun s ht => ht) st.sessions h

theorem sessionActive_deleteUser (st : ServerState) (x sid uid pw : String)
    (h : sessionActive st x = false) :
    sessionActive (deleteUser st sid uid pw).2 x = false := by
  rcases deleteUser_sessions st sid uid pw with h1 | h1
  · rw [sessionActive, h1]
    exact h
  · rw [sessionActive, h1]
    exact sessionActiveIn_updateSessions_mono sid x
      (fun s => { s with loggedInUser := "" }) (fun s ht => ht) st.sessions h

theorem sessionActive_changePassword (st : ServerState) (x sid a b : String)
    (h : sessionActive st x = false) :
    sessionActive (changePassword st sid a b).2 x = false := by
  rw [sessionActive, changePassword_sessions]
  exact h

theorem sessionActive_setUserString (st : ServerState) (x sid v : String)
    (h : sessionActive st x = false) :
    sessionActive (setUserString st sid v).2 x = false := by
  rw [sessionActive, setUserString_sessions]
  exact h

theorem sessionActive_sessionDeactivate (st : ServerState) (x sid : String)
    (h : sessionActive st x = false) :
    sessionActive (sessionDeactivate st sid) x = false := by
  refine sessionActiveIn_updateSessions_mono sid x
    (fun s => { s with isActive := false }) ?_ st.sessions h
  intro s ht
  cases ht

theorem sessionActive_handleLoginConflict (st : ServerState) (x sid uid pw : String)
    (force : Bool) (h : sessionActive st x = false) :
    sessionActive (handleLoginConflict st sid uid pw force).2.1 x = false := by
  rcases handleLoginConflict_state st sid uid pw force with h1 | ⟨h1, _⟩ | ⟨_, h1⟩
  · rw [h1]
    exact h
  · rw [h1]
    exact sessionActiveIn_updateSessions_mono sid x
      (fun s => { s with loggedInUser := uid }) (fun s ht => ht) st.sessions h
  · rw [h1]
    refine sessionActiveIn_updateSessions_mono sid x
      (fun s => { s with loggedInUser := uid }) (fun s ht => ht) _ ?_
    refine sessionActiveIn_updateSessions_mono (findUserSession st.sessions uid) x
      (fun s0 => { s0 with loggedInUser := "", isActive := false }) ?_ st.sessions h
    intro s ht
    cases ht

theorem sessionActive_processClientMessage (st : ServerState) (x sid m : String)
    (h : sessionActive st x = false) :
    sessionActive (processClientMessage st sid m).2.1 x = false := by
  simp only [processClientMessage]
  split_ifs
  · exact sessionActive_registerUser st x _ _ h
  · exact h
  · exact sessionActive_loginUser st x sid _ _ h
  · exact h
  · exact sessionActive_handleLoginConflict st x sid _ _ _ h
  · exact h
  · exact sessionActive_logoutUser st x sid h
  · exact sessionActive_deleteUser st x sid _ _ h
  · exact h
  · exact sessionActive_changePassword st x sid _ _ h
  · exact h
  · exact sessionActive_setUserString st x sid _ h
  · exact h
  · exact h
  · exact sessionActive_sessionDeactivate st x sid h
  · exact h

/-- System configuration: shared state plus, per session id, whether
that worker has passed its loop guard and sits in the blocking
receive. -/
structure SysConfig where
  state : ServerState
  inRecv : List (String × Bool)
deriving DecidableEq, Repr

/-- Is the worker for `sid` inside its guarded receive. -/
def workerInReceive (cfg : SysConfig) (sid : String) : Bool :=
  match mapFind sid cfg.inRecv with
  | some b => b
  | none => false

/-- One scheduler event: a worker passes the `running && isActive`
loop guard and blocks in receive, or a guarded worker's receive
completes with a frame which the worker immediately dispatches. -/
inductive Event where
  | guard (sid : String)
  | deliver (sid : String) (msg : String)
deriving DecidableEq, Repr

/-- Event semantics: a guard succeeds only for an active session of a
worker not already in receive; a delivery is possible only for a
worker that is in receive (the guard is not re-checked before
dispatch, mirroring the loop body). -/
def stepEvent (cfg : SysConfig) (ev : Event) : Option SysConfig :=
  match ev with
  | .guard sid =>
    if workerInReceive cfg sid then none
    else if sessionActive cfg.state sid then
      some ⟨cfg.state, mapInsert sid true cfg.inRecv⟩
    else none
  | .deliver sid msg =>
    if workerInReceive cfg sid then
      some ⟨(processClientMessage cfg.state sid msg).2.1, mapInsert sid false cfg.inRecv⟩
    else none

/-- Run a schedule of events; `none` when some event is not enabled. -/
def runEvents (cfg : SysConfig) : List Event → Option SysConfig
  | [] => some cfg
  | ev :: evs =>
    match stepEvent cfg ev with
    | none => none
    | some cfg1 => runEvents cfg1 evs

/-- C8 counterexample start: account `"alice"`, session `"A"` logged
in as `"alice"`, session `"B"` anonymous, no worker in receive. -/
def kickCfg : SysConfig :=
  ⟨⟨[("alice", ⟨"alice", "pw", ""⟩)],
    [("A", ⟨1, "A", "alice", true⟩), ("B", ⟨2, "B", "", true⟩)]⟩, []⟩

/-- Configuration after `"A"` and `"B"` pass their guards and `"B"`'s
FORCE_LOGIN takeover is dispatched: `"A"` is evicted (inactive) while
its own guarded receive is still in flight. -/
def kickCfgMid : SysConfig :=
  ⟨⟨[("alice", ⟨"alice", "pw", ""⟩)],
    [("A", ⟨1, "A", "", false⟩), ("B", ⟨2, "B", "alice", true⟩)]⟩,
   [("A", true), ("B", false)]⟩

/-- Configuration after the already-received command of the evicted
`"A"` is dispatched: the REGISTER was processed and mutated the
account store. -/
def kickCfgEnd : SysConfig :=
  ⟨⟨[("alice", ⟨"alice", "pw", ""⟩), ("bob", ⟨"bob", "pw2", ""⟩)],
    [("A", ⟨1, "A", "", false⟩), ("B", ⟨2, "B", "alice", true⟩)]⟩,
   [("A", false), ("B", false)]⟩

/-- C8 counterexample: in the interleaving where session `"A"` passes
its loop guard and blocks in receive, then `"B"`'s forced takeover
evicts `"A"`, the command `"A"` subsequently submits is still
dispatched and processed (it registers the account `"bob"`), because
the `active` guard is only re-checked at the next loop head — so the
inactive session's command is not refused. -/
theorem evicted_session_command_processed :
    runEvents kickCfg [Event.guard "A", Event.guard "B",
      Event.deliver "B" "FORCE_LOGIN|alice|pw|Y"] = some kickCfgMid ∧
    sessionActive kickCfgMid.state "A" = false ∧
    runEvents kickCfgMid [Event.deliver "A" "REGISTER|bob|pw2"] = some kickCfgEnd ∧
    mapFind "bob" kickCfgEnd.state.users = some ⟨"bob", "pw2", ""⟩ := by
  refine ⟨by decide, by decide, by decide, by decide⟩

/-- C8 (amended): a forced takeover sends the `KICKED` notice to the
evicted session's socket at eviction time and marks it inactive; from
then on the evicted worker can pass no further loop-guard check, so no
new receive iteration begins and every command delivered after its
current in-flight receive completes is refused — but the single
command whose guarded receive was already in flight at eviction time
is still dispatched, as the counterexample shows. -/
theorem evicted_session_guard_refused :
    (∀ (st : ServerState) (sid uid pw : String) (s ex : ClientSession) (u : User),
      mapFind sid st.sessions = some s → s.loggedInUser = "" →
      mapFind uid st.users = some u → u.password = pw →
      findUserSession st.sessions uid ≠ "" →
      mapFind (findUserSession st.sessions uid) st.sessions = some ex →
      (handleLoginConflict st sid uid pw true).2.2 =
        [(ex.clientSocket, "KICKED|您的账号在其他地方登录，连接已断开")] ∧
      sessionActive (handleLoginConflict st sid uid pw true).2.1
        (findUserSession st.sessions uid) = false) ∧
    (∀ (evts : List Event) (cfg cfg' : SysConfig) (sid : String),
      runEvents cfg evts = some cfg' →
      sessionActive cfg.state sid = false → workerInReceive cfg sid = false →
      ∀ msg, Event.deliver sid msg ∉ evts) := by
  constructor
  · intro st sid uid pw s ex u hs hanon hu hpw hfind hex
    have hres : handleLoginConflict st sid uid pw true =
        ("SUCCESS|登录成功，已挤占原会话",
          setSessionUser
            { st with
              sessions := updateSessions (findUserSession st.sessions uid)
                (fun s0 => { s0 with loggedInUser := "", isActive := false }) st.sessions }
            sid uid,
          [(ex.clientSocket, "KICKED|您的账号在其他地方登录，连接已断开")]) := by
      simp only [handleLoginConflict, hs, hu, hex]
      rw [if_neg (by simp [hanon]), if_neg (by simp [hpw]), if_pos hfind,
        if_neg (by simp)]
    constructor
    · rw [hres]
    · rw [hres]
      have hbase : sessionActiveIn (updateSessions (findUserSession st.sessions uid)
          (fun s0 => { s0 with loggedInUser := "", isActive := false }) st.sessions)
          (findUserSession st.sessions uid) = false := by
        rw [sessionActiveIn, mapFind_updateSessions_self, hex]
        rfl
      exact sessionActiveIn_updateSessions_mono sid (findUserSession st.sessions uid)
        (fun s0 => { s0 with loggedInUser := uid }) (fun s0 ht => ht) _ hbase
  · intro evts
    induction evts with
    | nil =>
      intro cfg cfg' sid _ _ _ msg
      exact List.not_mem_nil _
    | cons ev evs ih =>
      intro cfg cfg' sid hrun hact hrecv msg hmem
      simp only [runEvents] at hrun
      cases hstep : stepEvent cfg ev with
      | none =>
        rw [hstep] at hrun
        cases hrun
      | some cfg1 =>
        rw [hstep] at hrun
        rcases List.mem_cons.mp hmem with h1 | h1
        · subst h1
          simp [stepEvent, hrecv] at hstep
        · have hpres : sessionActive cfg1.state sid = false ∧
              workerInReceive cfg1 sid = false := by
            cases ev with
            | guard sid2 =>
              simp only [stepEvent] at hstep
              by_cases hw : workerInReceive cfg sid2 = true
              · rw [if_pos hw] at hstep
                cases hstep
              · rw [if_neg hw] at hstep
                by_cases ha : sessionActive cfg.state sid2 = true
                · rw [if_pos ha] at hstep
                  injection hstep with he
                  subst he
                  by_cases hss : sid2 = sid
                  · exact absurd ha (by simp [hss, hact])
                  · constructor
                    · exact hact
                    · show (match mapFind sid (mapInsert sid2 true cfg.inRecv) with
                        | some b => b
                        | none => false) = false
                      rw [mapFind_mapInsert_ne sid2 sid true (fun h => hss h.symm) cfg.inRecv]
                      exact hrecv
                · rw [if_neg ha] at hstep
                  cases hstep
            | deliver sid2 msg2 =>
              simp only [stepEvent] at hstep
              by_cases hw : workerInReceive cfg sid2 = true
              · rw [if_pos hw] at hstep
                injection hstep with he
                subst he
                by_cases hss : sid2 = sid
                · exact absurd hw (by simp [hss, hrecv])
                · constructor
                  · exact sessionActive_processClientMessage cfg.state sid sid2 msg2 hact
                  · show (match mapFind sid (mapInsert sid2 false cfg.inRecv) with
                      | some b => b
                      | none => false) = false
                    rw [mapFind_mapInsert_ne sid2 sid false (fun h => hss h.symm) cfg.inRecv]
                    exact hrecv
              · rw [if_neg hw] at hstep
                cases hstep
          exact ih cfg1 cfg' sid hrun hpres.1 hpres.2 msg h1

/-- C8 witness: the KICKED notice at a concrete conflicted state, and
refusal of a delivery for the inactive idle session `"A"` along a
concrete valid schedule. -/
theorem evicted_session_guard_refused_witness :
    (handleLoginConflict conflictState "B" "alice" "pw" true).2.2 =
      [(1, "KICKED|您的账号在其他地方登录，连接已断开")] ∧
    Event.deliver "A" "GET_STRING" ∉ [Event.guard "B"] := by
  have h := evicted_session_guard_refused
  constructor
  · exact (h.1 conflictState "B" "alice" "pw" ⟨2, "B", "", true⟩ ⟨1, "A", "alice", true⟩
      ⟨"alice", "pw", ""⟩ rfl rfl rfl rfl (by decide) (by decide)).1
  · exact h.2 [Event.guard "B"] kickCfgEnd
      ⟨kickCfgEnd.state, [("A", false), ("B", true)]⟩ "A"
      (by decide) (by decide) (by decide) "GET_STRING"

end ServerSystem
